import Mathlib

/-!
Verification of the cass_memory_system knowledge-curation engine.

Each definition below is a shallow embedding of a function of the TypeScript
source (file and symbol named in its doc comment).  JavaScript strings are
modelled as Lean `String`s, JS numbers used as scores as `Rat`, `undefined`
as `Option.none`, thrown exceptions as `Except`/`Option` error values, and
the filesystem state touched by the lock module as an explicit value that is
threaded through the functions.
-/

/-! ## String helpers

JS `String.prototype.toLowerCase` (on the ASCII content these keys carry) is
modelled by mapping `Char.toLower` over the characters; substring search is
lexicographic over the character list. -/

/-- Case-fold a string, modelling JS `toLowerCase` on its character list. -/
def strToLower (s : String) : String :=
  ⟨s.data.map Char.toLower⟩

/-- Does `sub` occur as a contiguous run inside `l`? -/
def containsSubAux (sub : List Char) : List Char → Bool
  | [] => sub.isEmpty
  | c :: cs => sub.isPrefixOf (c :: cs) || containsSubAux sub cs

/-- Does string `sub` occur inside string `s`? -/
def containsSub (s sub : String) : Bool :=
  containsSubAux sub.data s.data

/-- Lexicographic comparison on character lists (JS default string sort order,
restricted to the ASCII ids it is applied to). -/
def charListLe : List Char → List Char → Bool
  | [], _ => true
  | _ :: _, [] => false
  | a :: as, b :: bs => if a = b then charListLe as bs else decide (a < b)

/-- Lexicographic `≤` on strings as a `Prop`, used as the sort relation. -/
def strLe (a b : String) : Prop :=
  charListLe a.data b.data = true

instance : DecidableRel strLe := fun a b => by
  unfold strLe
  infer_instance

/-- JS `Array.prototype.sort()` on an array of strings (default comparator:
lexicographic). -/
def sortStrings (l : List String) : List String :=
  List.insertionSort strLe l

theorem charListLe_total (a b : List Char) :
    charListLe a b = true ∨ charListLe b a = true := by
  induction a generalizing b with
  | nil => left; rfl
  | cons x xs ih =>
    cases b with
    | nil => right; rfl
    | cons y ys =>
      by_cases hxy : x = y
      · subst hxy
        rcases ih ys with h | h
        · left; simpa [charListLe] using h
        · right; simpa [charListLe] using h
      · rcases lt_or_gt_of_ne hxy with h | h
        · left; simp [charListLe, hxy, h]
        · right
          have hyx : ¬ y = x := fun h2 => hxy h2.symm
          simp [charListLe, hyx, h]

theorem charListLe_trans (a b c : List Char)
    (hab : charListLe a b = true) (hbc : charListLe b c = true) :
    charListLe a c = true := by
  induction a generalizing b c with
  | nil => rfl
  | cons x xs ih =>
    cases b with
    | nil => simp [charListLe] at hab
    | cons y ys =>
      cases c with
      | nil => simp [charListLe] at hbc
      | cons z zs =>
        by_cases hxy : x = y
        · subst hxy
          by_cases hyz : x = z
          · subst hyz
            simp only [charListLe, if_pos rfl] at hab hbc ⊢
            exact ih ys zs hab hbc
          · simp only [charListLe, if_pos rfl] at hab
            simp only [charListLe, if_neg hyz] at hbc ⊢
            exact hbc
        · by_cases hyz : y = z
          · subst hyz
            simp only [charListLe, if_neg hxy] at hab ⊢
            exact hab
          · simp only [charListLe, if_neg hxy] at hab
            simp only [charListLe, if_neg hyz] at hbc
            by_cases hxz : x = z
            · subst hxz
              exact absurd (lt_trans (of_decide_eq_true hab) (of_decide_eq_true hbc))
                (lt_irrefl x)
            · simp only [charListLe, if_neg hxz]
              exact decide_eq_true (lt_trans (of_decide_eq_true hab) (of_decide_eq_true hbc))

theorem strLe_total : ∀ a b : String, strLe a b ∨ strLe b a := fun a b =>
  charListLe_total a.data b.data

theorem strLe_trans : ∀ a b c : String, strLe a b → strLe b c → strLe a c :=
  fun a b c hab hbc => charListLe_trans a.data b.data c.data hab hbc

/-! ## File lock (src/src/lock.ts)

The lock module guards a target file with a sidecar `<target>.lock` file
holding a JSON record `{pid, timestamp, operation}`.  The lock file on disk
is modelled by `LockFile`: `absent` (no file), `corrupt` (present but its
contents fail to parse as JSON — `JSON.parse` throws), or `held info`
(present with a parsed record).  Liveness of a recorded pid
(`process.kill(pid, 0)`) is an environment parameter `alive`.  Time is an
integer count of milliseconds; each wait-and-retry advances it by the 500 ms
retry delay. -/

/-- `LockInfo` of src/src/lock.ts: the parsed contents of a lock file. -/
structure LockInfo where
  pid : Nat
  timestamp : Int
  operation : String
deriving DecidableEq

/-- State of the sidecar lock file on disk. -/
inductive LockFile where
  | absent
  | corrupt
  | held (info : LockInfo)
deriving DecidableEq

/-- `LOCK_STALE_MS` of src/src/lock.ts. -/
def LOCK_STALE_MS : Int := 30000

/-- `LOCK_RETRY_MS` of src/src/lock.ts. -/
def LOCK_RETRY_MS : Int := 500

/-- `LOCK_MAX_RETRIES` of src/src/lock.ts. -/
def LOCK_MAX_RETRIES : Nat := 20

/-- `FileLock.checkStale` of src/src/lock.ts: a missing or unparseable lock
file is stale (the surrounding `catch` returns `true`); a parsed lock is
stale when its age exceeds `LOCK_STALE_MS`, and otherwise exactly when its
recorded pid is no longer alive. -/
def checkStale (now : Int) (alive : Nat → Bool) : LockFile → Bool
  | .absent => true
  | .corrupt => true
  | .held info =>
    if now - info.timestamp > LOCK_STALE_MS then true
    else if alive info.pid then false else true

/-- `FileLock.acquire` of src/src/lock.ts, single process against a fixed
environment.  An absent lock file is created atomically (`wx` write) with the
caller's pid and the current time.  An existing lock that `checkStale`
classifies as stale is force-released and the retry (which the source `continue`s
into without counting an attempt) immediately re-creates it.  A live lock
causes a 500 ms wait and a counted retry; when all `LOCK_MAX_RETRIES`
attempts are exhausted the source throws, modelled by `none`. -/
def acquire (alive : Nat → Bool) (pid : Nat) (operation : String) :
    Nat → Int → LockFile → Option LockFile
  | 0, _, _ => none
  | _ + 1, now, .absent => some (.held ⟨pid, now, operation⟩)
  | fuel + 1, now, s =>
    if checkStale now alive s then some (.held ⟨pid, now, operation⟩)
    else acquire alive pid operation fuel (now + LOCK_RETRY_MS) s

/-- Outcome of a `withLock` call. -/
inductive LockResult (ε α : Type) where
  | acquireFailed
  | actionFailed (e : ε)
  | ok (a : α)
deriving DecidableEq

/-- `withLock` of src/src/lock.ts: acquire, run the action, and release in a
`finally` block.  The action is a state transformer over an abstract store
`σ` (the target file's contents) that either returns a value with an updated
store or throws; it does not touch the lock file.  `release` unlinks the
sidecar, so on both action outcomes the lock file ends `absent`. -/
def withLock {σ ε α : Type} (alive : Nat → Bool) (pid : Nat) (operation : String)
    (now : Int) (s : LockFile) (store : σ) (action : σ → Except ε (α × σ)) :
    LockResult ε α × LockFile × σ :=
  match acquire alive pid operation LOCK_MAX_RETRIES now s with
  | none => (.acquireFailed, s, store)
  | some _ =>
    match action store with
    | .ok (a, store') => (.ok a, .absent, store')
    | .error e => (.actionFailed e, .absent, store)

/-- Claim C1: for every target state on which the lock can be acquired and
every action, `withLock` runs the action while holding the lock and removes
the sidecar lock file on every exit path: whether the action returns or
throws, afterwards the lock file is absent, and the call's outcome is
exactly the action's outcome. -/
theorem withLock_releases_on_all_paths {σ ε α : Type}
    (alive : Nat → Bool) (pid : Nat) (operation : String) (now : Int)
    (s : LockFile) (store : σ) (action : σ → Except ε (α × σ))
    (hacq : (acquire alive pid operation LOCK_MAX_RETRIES now s).isSome) :
    (withLock alive pid operation now s store action).2.1 = .absent ∧
    (∀ a store', action store = .ok (a, store') →
      withLock alive pid operation now s store action = (.ok a, .absent, store')) ∧
    (∀ e, action store = .error e →
      withLock alive pid operation now s store action = (.actionFailed e, .absent, store)) := by
  rcases Option.isSome_iff_exists.mp hacq with ⟨s', hs'⟩
  refine ⟨?_, ?_, ?_⟩
  · unfold withLock
    rw [hs']
    cases h : action store with
    | ok p => cases p; simp
    | error e => simp
  · intro a store' ha
    unfold withLock
    rw [hs', ha]
  · intro e he
    unfold withLock
    rw [hs', he]

/-- Witness for C1: a concrete acquirable state (absent lock file) with a
throwing action; the lock file ends absent and the error propagates. -/
theorem withLock_releases_on_all_paths_witness :
    ((acquire (fun _ => true) 7 "curate" LOCK_MAX_RETRIES 1000 .absent).isSome) ∧
    (withLock (σ := Nat) (ε := String) (α := Nat) (fun _ => true) 7 "curate" 1000
      .absent 0 (fun _ => .error "boom")).2.1 = .absent := by
  refine ⟨by decide, ?_⟩
  exact (withLock_releases_on_all_paths (fun _ => true) 7 "curate" 1000 .absent 0
    (fun _ => .error "boom") (by decide)).1

/-- Claim C2: an existing, parseable lock is classified stale exactly when
its recorded age exceeds 30 s or the recorded pid no longer exists, and a
stale lock is then broken: acquisition removes it and succeeds. -/
theorem checkStale_age_or_dead_pid (now : Int) (alive : Nat → Bool) (info : LockInfo) :
    (checkStale now alive (.held info) = true ↔
      (now - info.timestamp > 30000 ∨ alive info.pid = false)) ∧
    (checkStale now alive (.held info) = true →
      ∀ pid operation, acquire alive pid operation LOCK_MAX_RETRIES now (.held info) =
        some (.held ⟨pid, now, operation⟩)) := by
  constructor
  · unfold checkStale LOCK_STALE_MS
    by_cases hage : now - info.timestamp > 30000
    · simp [hage]
    · by_cases hal : alive info.pid
      · simp [hage, hal]
      · simp [hage, hal]
  · intro hstale pid operation
    unfold LOCK_MAX_RETRIES acquire
    rw [if_pos hstale]

/-- Witness for C2: a lock whose pid is dead is stale even at age 0, and a
fresh acquire breaks it. -/
theorem checkStale_age_or_dead_pid_witness :
    checkStale 0 (fun _ => false) (.held ⟨3, 0, "reflect"⟩) = true ∧
    acquire (fun _ => false) 9 "reflect" LOCK_MAX_RETRIES 0 (.held ⟨3, 0, "reflect"⟩) =
      some (.held ⟨9, 0, "reflect"⟩) := by
  refine ⟨by decide, ?_⟩
  exact (checkStale_age_or_dead_pid 0 (fun _ => false) ⟨3, 0, "reflect"⟩).2 (by decide) 9 "reflect"

/-- Claim C9: a lock file whose contents fail to parse as a JSON `LockInfo`
record is classified stale, and a subsequent acquire attempt breaks it and
proceeds, so a corrupt lock file never permanently blocks acquisition. -/
theorem corrupt_lock_is_stale_and_broken (now : Int) (alive : Nat → Bool)
    (pid : Nat) (operation : String) :
    checkStale now alive .corrupt = true ∧
    acquire alive pid operation LOCK_MAX_RETRIES now .corrupt =
      some (.held ⟨pid, now, operation⟩) := by
  exact ⟨rfl, rfl⟩

/-! ## Playbook deltas (src/src/reflect.ts)

`PlaybookDelta` is the tagged variant of spec section 3 (its zod schema file
is not in the tree; the variants and their fields follow the data model and
the uses in src/src/reflect.ts).  The `add` variant's nested `bullet` record
is flattened into the constructor; `sourceSession` is the optional top-level
field the reflection loop injects. -/

inductive PlaybookDelta where
  | add (content category scope kind : String) (sourceSession : Option String)
      (reason : String)
  | replace (bulletId newContent reason : String)
  | merge (bulletIds : List String) (mergedContent reason : String)
  | deprecate (bulletId reason : String) (replacedBy : Option String)
  | helpful (bulletId : String) (sourceSession : Option String) (reason : String)
  | harmful (bulletId : String) (sourceSession : Option String) (reason : String)
deriving DecidableEq

/-- `hashDelta` of src/src/reflect.ts.  The source tests `type === "add"`,
then `type === "replace"`, then `"bulletId" in delta` (which catches
`helpful`, `harmful` and `deprecate`), and finally `type === "merge"`
(`merge` carries `bulletIds`, not `bulletId`, so it reaches that branch);
`bulletIds.sort()` is the JS default lexicographic string sort. -/
def hashDelta : PlaybookDelta → String
  | .add content _ _ _ _ _ => "add:" ++ strToLower content
  | .replace bulletId newContent _ => "replace:" ++ bulletId ++ ":" ++ newContent
  | .helpful bulletId _ _ => "helpful:" ++ bulletId
  | .harmful bulletId _ _ => "harmful:" ++ bulletId
  | .deprecate bulletId _ _ => "deprecate:" ++ bulletId
  | .merge bulletIds _ _ => "merge:" ++ String.intercalate "," (sortStrings bulletIds)

/-- Recursion of `deduplicateDeltas` of src/src/reflect.ts: the `seen` set of
hashes starts from the existing deltas and grows as new deltas are kept, so
duplicates inside the new list are dropped as well. -/
def dedupGo (seen : List String) : List PlaybookDelta → List PlaybookDelta
  | [] => []
  | d :: ds =>
    let h := hashDelta d
    if seen.contains h then dedupGo seen ds
    else d :: dedupGo (h :: seen) ds

/-- `deduplicateDeltas` of src/src/reflect.ts. -/
def deduplicateDeltas (newDeltas existing : List PlaybookDelta) : List PlaybookDelta :=
  dedupGo (existing.map hashDelta) newDeltas

/-- JS falsiness of the optional `sourceSession` string: `undefined`, `null`
and the empty string are all falsy, so `!d.sourceSession` holds for them. -/
def jsFalsyStr : Option String → Bool
  | none => true
  | some s => s.isEmpty

/-- The per-delta `validDeltas` mapping inside `reflectOnSession` of
src/src/reflect.ts: an `add` delta always gets `sourceSession` overwritten
with the diary's session path (the source comment reads "Force sourceSession
injection"); `helpful`/`harmful` get it injected only when falsy; all other
variants pass through unchanged. -/
def injectSourceSession (sessionPath : String) : PlaybookDelta → PlaybookDelta
  | .add c cat sc k _ r => .add c cat sc k (some sessionPath) r
  | .helpful b ss r =>
    if jsFalsyStr ss then .helpful b (some sessionPath) r else .helpful b ss r
  | .harmful b ss r =>
    if jsFalsyStr ss then .harmful b (some sessionPath) r else .harmful b ss r
  | d => d

/-- The iteration loop of `reflectOnSession` of src/src/reflect.ts.  The
oracle (`runReflector`) is a function from the iteration index to the list of
deltas it returns; each iteration maps `injectSourceSession` over the output,
deduplicates against all deltas gathered so far, appends, and exits early on
an empty contribution or once 20 deltas have accumulated. -/
def reflectIter (oracle : Nat → List PlaybookDelta) (sessionPath : String) :
    Nat → Nat → List PlaybookDelta → List PlaybookDelta
  | 0, _, acc => acc
  | fuel + 1, i, acc =>
    let validDeltas := (oracle i).map (injectSourceSession sessionPath)
    let uniqueDeltas := deduplicateDeltas validDeltas acc
    let acc' := acc ++ uniqueDeltas
    if uniqueDeltas.isEmpty then acc'
    else if 20 ≤ acc'.length then acc'
    else reflectIter oracle sessionPath fuel (i + 1) acc'

/-- `reflectOnSession` of src/src/reflect.ts, as a function of the oracle,
the diary's `sessionPath` and `config.maxReflectorIterations`. -/
def reflectOnSession (oracle : Nat → List PlaybookDelta) (sessionPath : String)
    (maxReflectorIterations : Nat) : List PlaybookDelta :=
  reflectIter oracle sessionPath maxReflectorIterations 0 []

/-- Claim C3: `hashDelta` produces exactly the structural, case-folded keys
of the spec: `add` hashes to `"add:"` plus the lowercased content, `replace`
to `"replace:" + bulletId + ":" + newContent`, `merge` to `"merge:"` plus the
sorted bullet ids joined with commas (the sort being a lexicographically
sorted permutation of the ids), and `helpful`/`harmful`/`deprecate` to the
type followed by `":"` and the bullet id. -/
theorem hashDelta_structural_keys (content category scope kind bulletId newContent
    mergedContent reason : String) (sourceSession replacedBy : Option String)
    (bulletIds : List String) :
    hashDelta (.add content category scope kind sourceSession reason) =
      "add:" ++ strToLower content ∧
    hashDelta (.replace bulletId newContent reason) =
      "replace:" ++ bulletId ++ ":" ++ newContent ∧
    hashDelta (.merge bulletIds mergedContent reason) =
      "merge:" ++ String.intercalate "," (sortStrings bulletIds) ∧
    (sortStrings bulletIds).Perm bulletIds ∧
    List.Sorted strLe (sortStrings bulletIds) ∧
    hashDelta (.helpful bulletId sourceSession reason) = "helpful:" ++ bulletId ∧
    hashDelta (.harmful bulletId sourceSession reason) = "harmful:" ++ bulletId ∧
    hashDelta (.deprecate bulletId reason replacedBy) = "deprecate:" ++ bulletId := by
  refine ⟨rfl, rfl, rfl, List.perm_insertionSort strLe bulletIds, ?_, rfl, rfl, rfl⟩
  exact @List.sorted_insertionSort String strLe _
    ⟨fun a b => strLe_total a b⟩ ⟨fun a b c => strLe_trans a b c⟩ bulletIds

/-- Every delta kept by `dedupGo` is one of the candidates. -/
theorem dedupGo_subset (seen : List String) (l : List PlaybookDelta)
    (d : PlaybookDelta) (hd : d ∈ dedupGo seen l) : d ∈ l := by
  induction l generalizing seen with
  | nil => simp [dedupGo] at hd
  | cons x xs ih =>
    unfold dedupGo at hd
    by_cases hx : (seen.contains (hashDelta x))
    · rw [if_pos hx] at hd
      exact List.mem_cons_of_mem x (ih _ hd)
    · rw [if_neg hx] at hd
      rcases List.mem_cons.mp hd with h | h
      · exact h ▸ List.mem_cons_self x xs
      · exact List.mem_cons_of_mem x (ih _ h)

/-- Every delta returned by the reflection loop is the
`injectSourceSession` image of a delta some oracle iteration returned. -/
theorem reflectIter_mem (oracle : Nat → List PlaybookDelta) (sessionPath : String)
    (fuel i : Nat) (acc : List PlaybookDelta)
    (hacc : ∀ d ∈ acc, ∃ j d₀, d₀ ∈ oracle j ∧ d = injectSourceSession sessionPath d₀)
    (d : PlaybookDelta) (hd : d ∈ reflectIter oracle sessionPath fuel i acc) :
    ∃ j d₀, d₀ ∈ oracle j ∧ d = injectSourceSession sessionPath d₀ := by
  induction fuel generalizing i acc with
  | zero => exact hacc d (by simp [reflectIter] at hd; exact hd)
  | succ n ih =>
    have hstep : ∀ e ∈ acc ++ deduplicateDeltas
        ((oracle i).map (injectSourceSession sessionPath)) acc,
        ∃ j d₀, d₀ ∈ oracle j ∧ e = injectSourceSession sessionPath d₀ := by
      intro e he
      rcases List.mem_append.mp he with h | h
      · exact hacc e h
      · have := dedupGo_subset _ _ _ h
        rcases List.mem_map.mp this with ⟨d₀, hd₀, hmap⟩
        exact ⟨i, d₀, hd₀, hmap.symm⟩
    unfold reflectIter at hd
    by_cases hempty : (deduplicateDeltas
        ((oracle i).map (injectSourceSession sessionPath)) acc).isEmpty
    · rw [if_pos hempty] at hd
      exact hstep d hd
    · rw [if_neg hempty] at hd
      by_cases hlen : 20 ≤ (acc ++ deduplicateDeltas
          ((oracle i).map (injectSourceSession sessionPath)) acc).length
      · rw [if_pos hlen] at hd
        exact hstep d hd
      · rw [if_neg hlen] at hd
        exact ih (i + 1) _ hstep hd

/-- Counterexample to claim C6: an `add` delta already carrying
`sourceSession = "other-session"` does not keep it — `reflectOnSession`
returns it with `sourceSession` overwritten by the diary's session path. -/
theorem reflectOnSession_add_overwritten :
    reflectOnSession
      (fun _ => [.add "Use bun" "testing" "global" "workflow_rule"
        (some "other-session") "r"])
      "diary-session" 3 =
      [.add "Use bun" "testing" "global" "workflow_rule"
        (some "diary-session") "r"] ∧
    (some "diary-session" : Option String) ≠ some "other-session" := by
  exact ⟨by decide, by decide⟩

/-- Claim C6 as amended: in the lists formed by `reflectOnSession`, `helpful`
and `harmful` deltas get the diary's session path injected exactly when their
`sourceSession` is missing (or the JS-falsy empty string) and otherwise keep
their original value; `add` deltas always get `sourceSession` set to the
diary's session path, overwriting any value they carried; `replace`, `merge`
and `deprecate` deltas are unchanged; and every returned delta is such an
image of a delta produced by the extraction oracle. -/
theorem reflectOnSession_sourceSession_injection (sessionPath : String)
    (oracle : Nat → List PlaybookDelta) (maxReflectorIterations : Nat)
    (content category scope kind bulletId newContent mergedContent reason : String)
    (sourceSession replacedBy : Option String) (bulletIds : List String) :
    injectSourceSession sessionPath
      (.add content category scope kind sourceSession reason) =
      .add content category scope kind (some sessionPath) reason ∧
    (jsFalsyStr sourceSession = false →
      injectSourceSession sessionPath (.helpful bulletId sourceSession reason) =
        .helpful bulletId sourceSession reason ∧
      injectSourceSession sessionPath (.harmful bulletId sourceSession reason) =
        .harmful bulletId sourceSession reason) ∧
    (jsFalsyStr sourceSession = true →
      injectSourceSession sessionPath (.helpful bulletId sourceSession reason) =
        .helpful bulletId (some sessionPath) reason ∧
      injectSourceSession sessionPath (.harmful bulletId sourceSession reason) =
        .harmful bulletId (some sessionPath) reason) ∧
    injectSourceSession sessionPath (.replace bulletId newContent reason) =
      .replace bulletId newContent reason ∧
    injectSourceSession sessionPath (.merge bulletIds mergedContent reason) =
      .merge bulletIds mergedContent reason ∧
    injectSourceSession sessionPath (.deprecate bulletId reason replacedBy) =
      .deprecate bulletId reason replacedBy ∧
    (∀ d ∈ reflectOnSession oracle sessionPath maxReflectorIterations,
      ∃ j d₀, d₀ ∈ oracle j ∧ d = injectSourceSession sessionPath d₀) := by
  refine ⟨rfl, ?_, ?_, rfl, rfl, rfl, ?_⟩
  · intro hfalse
    constructor <;> simp [injectSourceSession, hfalse]
  · intro htrue
    constructor <;> simp [injectSourceSession, htrue]
  · intro d hd
    exact reflectIter_mem oracle sessionPath maxReflectorIterations 0 []
      (by intro d hd; simp at hd) d hd

/-- Witness for C6's amended theorem: a `helpful` delta that carries a
non-empty `sourceSession` keeps it. -/
theorem reflectOnSession_sourceSession_injection_witness :
    injectSourceSession "diary-session"
      (.helpful "b1" (some "other-session") "r") =
      .helpful "b1" (some "other-session") "r" := by
  exact ((reflectOnSession_sourceSession_injection "diary-session" (fun _ => [])
    0 "" "" "" "" "b1" "" "" "r" (some "other-session") none []).2.1 (by decide)).1

/-! ## Evidence-count gate (spec section 4.5)

`evidenceCountGate` lives in src/validate.ts, which is not in the source
tree; only its tests (src/test/validate.test.ts) are.  The definitions below
are modelled from the spec.  The keyword-extraction and history-query steps
(1–2) are upstream of the hit list and are elided: the gate is modelled from
the returned hits onward (steps 3–5). -/

/-- An apostrophe, as a one-character string. -/
def apostrophe : String :=
  String.mk ['\x27']

/-- Strip every occurrence of `pat` from a character list; the fuel (always
instantiated with the list's length, which dropping matches never exceeds)
keeps the recursion structural. -/
def stripOccFuel (pat : List Char) : Nat → List Char → List Char
  | 0, l => l
  | _ + 1, [] => []
  | fuel + 1, c :: cs =>
    if pat.isPrefixOf (c :: cs) then stripOccFuel pat fuel (cs.drop (pat.length - 1))
    else c :: stripOccFuel pat fuel cs

/-- Strip every occurrence of `pat` from a character list. -/
def stripOcc (pat l : List Char) : List Char :=
  stripOccFuel pat l.length l

/-- Modelled from the spec: the success markers of spec section 4.5 step 4. -/
def successMarkers : List String :=
  ["fixed", "solved", "resolved", "works", "working"]

/-- Modelled from the spec: the failure markers of spec section 4.5 step 4. -/
def failureMarkers : List String :=
  ["failed", "crashed", "doesn" ++ apostrophe ++ "t work", "error"]

/-- Modelled from the spec: a snippet carries a success signal when it
contains a success marker, explicitly excluding `fixed-width` (occurrences of
`fixed-width` are removed before the markers are searched for). -/
def successSnippet (s : String) : Bool :=
  let t : String := ⟨stripOcc ("fixed-width".data) (strToLower s).data⟩
  successMarkers.any (fun m => containsSub t m)

/-- Modelled from the spec: a snippet carries a failure signal when it
contains a failure marker. -/
def failureSnippet (s : String) : Bool :=
  failureMarkers.any (fun m => containsSub (strToLower s) m)

/-- A search hit of the history tool (spec section 4.7; `line_number`,
`agent` and `score` are not consulted by the gate and are elided). -/
structure CassHit where
  source_path : String
  snippet : String
deriving DecidableEq

/-- Modelled from the spec: the gate counts unique sessions by
`source_path`, not raw hits. -/
def uniqueSessions (hits : List CassHit) : List String :=
  (hits.map (fun h => h.source_path)).dedup

/-- Modelled from the spec: a session contributes a success when any of its
snippets carries a success signal. -/
def sessionHasSuccess (hits : List CassHit) (p : String) : Bool :=
  hits.any (fun h => decide (h.source_path = p) && successSnippet h.snippet)

/-- Modelled from the spec: a session contributes a failure when any of its
snippets carries a failure signal. -/
def sessionHasFailure (hits : List CassHit) (p : String) : Bool :=
  hits.any (fun h => decide (h.source_path = p) && failureSnippet h.snippet)

/-- Modelled from the spec: number of unique sessions with a success signal. -/
def gateSuccessCount (hits : List CassHit) : Nat :=
  (uniqueSessions hits).countP (sessionHasSuccess hits)

/-- Modelled from the spec: number of unique sessions with a failure signal. -/
def gateFailureCount (hits : List CassHit) : Nat :=
  (uniqueSessions hits).countP (sessionHasFailure hits)

/-- Result record of `evidenceCountGate` (spec section 4.5). -/
structure GateResult where
  passed : Bool
  suggestedState : Option String
  reason : String
  sessionCount : Nat
  successCount : Nat
  failureCount : Nat
deriving DecidableEq

/-- Modelled from the spec: `evidenceCountGate` of src/validate.ts (file not
in the tree), steps 3–5: tally success/failure over unique sessions, then
decide: `failureCount ≥ 2` fails with "Strong failure signal";
otherwise `successCount ≥ 5` passes with suggested state `active` and
"Auto-accepting"; otherwise passes with suggested state `draft` and an
"ambiguous" reason. -/
def evidenceCountGate (hits : List CassHit) : GateResult :=
  let n := (uniqueSessions hits).length
  let s := gateSuccessCount hits
  let f := gateFailureCount hits
  if 2 ≤ f then ⟨false, none, "Strong failure signal", n, s, f⟩
  else if 5 ≤ s then ⟨true, some "active", "Auto-accepting", n, s, f⟩
  else ⟨true, some "draft", "ambiguous", n, s, f⟩

/-- Claim C4: over the per-unique-session tallies, the gate's decision is:
`failureCount ≥ 2` returns `passed = false` with reason "Strong failure
signal"; otherwise `successCount ≥ 5` returns `passed = true` with suggested
state `active` and reason "Auto-accepting"; otherwise it returns
`passed = true` with suggested state `draft` and an "ambiguous" reason. -/
theorem evidenceCountGate_decision (hits : List CassHit) :
    (2 ≤ gateFailureCount hits →
      evidenceCountGate hits =
        ⟨false, none, "Strong failure signal", (uniqueSessions hits).length,
          gateSuccessCount hits, gateFailureCount hits⟩) ∧
    (gateFailureCount hits < 2 → 5 ≤ gateSuccessCount hits →
      evidenceCountGate hits =
        ⟨true, some "active", "Auto-accepting", (uniqueSessions hits).length,
          gateSuccessCount hits, gateFailureCount hits⟩) ∧
    (gateFailureCount hits < 2 → gateSuccessCount hits < 5 →
      evidenceCountGate hits =
        ⟨true, some "draft", "ambiguous", (uniqueSessions hits).length,
          gateSuccessCount hits, gateFailureCount hits⟩) := by
  refine ⟨?_, ?_, ?_⟩
  · intro hf
    simp only [evidenceCountGate, if_pos hf]
  · intro hf hs
    have hf' : ¬ 2 ≤ gateFailureCount hits := by omega
    simp only [evidenceCountGate, if_neg hf', if_pos hs]
  · intro hf hs
    have hf' : ¬ 2 ≤ gateFailureCount hits := by omega
    have hs' : ¬ 5 ≤ gateSuccessCount hits := by omega
    simp only [evidenceCountGate, if_neg hf', if_neg hs']

/-- Witness for C4: the spec's literal evidence-gate-failure scenario (three
unique failing sessions) is rejected with the "Strong failure signal"
reason. -/
theorem evidenceCountGate_decision_witness :
    2 ≤ gateFailureCount
      [⟨"s1.jsonl", "failed to compile"⟩, ⟨"s2.jsonl", "crashed with error"⟩,
        ⟨"s3.jsonl", "doesn" ++ apostrophe ++ "t work"⟩] ∧
    evidenceCountGate
      [⟨"s1.jsonl", "failed to compile"⟩, ⟨"s2.jsonl", "crashed with error"⟩,
        ⟨"s3.jsonl", "doesn" ++ apostrophe ++ "t work"⟩] =
      ⟨false, none, "Strong failure signal", 3, 0, 3⟩ := by
  refine ⟨by decide, ?_⟩
  exact ((evidenceCountGate_decision
    [⟨"s1.jsonl", "failed to compile"⟩, ⟨"s2.jsonl", "crashed with error"⟩,
      ⟨"s3.jsonl", "doesn" ++ apostrophe ++ "t work"⟩]).1 (by decide)).trans (by decide)

/-! ## Config loading and merging (src/src/config.ts)

The merged `Config` is modelled with the fields the claims touch: the three
security-sensitive paths plus representative ordinary keys.  A partially
specified overlay (`Partial<Config>` in the source) has every field optional;
a JS spread `{...base, ...overlay}` keeps the base value exactly where the
overlay lacks the key.  The nested `sanitization`/`crossAgent`/`scoring`/
`budget` sub-merges of the source do not involve the scrubbed keys and are
elided.  Parsing of the JSON/YAML file contents is an abstract
`parse : String → Option PartialConfig` (`none` models a parse exception);
file presence is `Option String` (the contents, or `none` when absent). -/

/-- The fully resolved configuration (the relevant projection of `Config` of
src/src/types.ts). -/
structure Config where
  cassPath : String
  playbookPath : String
  diaryDir : String
  provider : String
  model : String
  maxBulletsInContext : Nat
deriving DecidableEq

/-- A partial configuration layer (`Partial<Config>`). -/
structure PartialConfig where
  cassPath : Option String := none
  playbookPath : Option String := none
  diaryDir : Option String := none
  provider : Option String := none
  model : Option String := none
  maxBulletsInContext : Option Nat := none
deriving DecidableEq

/-- One key of a JS object spread: the overlay wins when it has the key. -/
def overlayField {α : Type} (base : α) (upd : Option α) : α :=
  upd.getD base

/-- The JS spread `{...base, ...p}` over the modelled keys. -/
def spreadMerge (base : Config) (p : PartialConfig) : Config where
  cassPath := overlayField base.cassPath p.cassPath
  playbookPath := overlayField base.playbookPath p.playbookPath
  diaryDir := overlayField base.diaryDir p.diaryDir
  provider := overlayField base.provider p.provider
  model := overlayField base.model p.model
  maxBulletsInContext := overlayField base.maxBulletsInContext p.maxBulletsInContext

/-- The three `delete repoConfig.*` statements of `loadConfig` in
src/src/config.ts: the repo layer's security-sensitive paths are removed
before merging. -/
def scrubRepoConfig (p : PartialConfig) : PartialConfig :=
  { p with cassPath := none, playbookPath := none, diaryDir := none }

/-- `loadConfigFile` of src/src/config.ts: an absent file yields the empty
partial config, and a file whose contents fail to parse (the `catch` branch,
after a warning) also yields the empty partial config. -/
def loadConfigFile (parse : String → Option PartialConfig)
    (file : Option String) : PartialConfig :=
  match file with
  | none => {}
  | some content => (parse content).getD {}

/-- The layer merge of `loadConfig` of src/src/config.ts:
`{...defaults, ...globalConfig, ...repoConfig, ...cliOverrides}` after the
repo layer has been scrubbed. -/
def mergeLayers (defaults : Config)
    (globalConfig repoConfig cliOverrides : PartialConfig) : Config :=
  spreadMerge (spreadMerge (spreadMerge defaults globalConfig)
    (scrubRepoConfig repoConfig)) cliOverrides

/-- `loadConfig` of src/src/config.ts: load the global config file and the
repo overlay config file (each tolerating absence and parse failure), scrub
the repo layer's sensitive paths, and merge under the CLI overrides.  The
final `ConfigSchema.safeParse` re-validation accepts any fully populated
record of this shape and is elided, as is the verbose env flag. -/
def loadConfig (parse : String → Option PartialConfig)
    (defaults : Config) (globalFile repoFile : Option String)
    (cliOverrides : PartialConfig) : Config :=
  mergeLayers defaults (loadConfigFile parse globalFile)
    (loadConfigFile parse repoFile) cliOverrides

/-- Claim C5: repo overlay configs that differ only in `cassPath`,
`playbookPath` or `diaryDir` produce the same merged config, and the merged
values of those three keys are exactly the global/default values overridden
only by the CLI layer — the repo-side values are never observable. -/
theorem loadConfig_repo_paths_not_observable (defaults : Config)
    (globalConfig cliOverrides repo₁ repo₂ : PartialConfig)
    (hprov : repo₁.provider = repo₂.provider)
    (hmodel : repo₁.model = repo₂.model)
    (hmax : repo₁.maxBulletsInContext = repo₂.maxBulletsInContext) :
    mergeLayers defaults globalConfig repo₁ cliOverrides =
      mergeLayers defaults globalConfig repo₂ cliOverrides ∧
    (mergeLayers defaults globalConfig repo₁ cliOverrides).cassPath =
      overlayField (overlayField defaults.cassPath globalConfig.cassPath)
        cliOverrides.cassPath ∧
    (mergeLayers defaults globalConfig repo₁ cliOverrides).playbookPath =
      overlayField (overlayField defaults.playbookPath globalConfig.playbookPath)
        cliOverrides.playbookPath ∧
    (mergeLayers defaults globalConfig repo₁ cliOverrides).diaryDir =
      overlayField (overlayField defaults.diaryDir globalConfig.diaryDir)
        cliOverrides.diaryDir := by
  refine ⟨?_, rfl, rfl, rfl⟩
  simp only [mergeLayers, spreadMerge, scrubRepoConfig, hprov, hmodel, hmax]

/-- Witness for C5: two repo overlays that disagree on all three sensitive
paths but agree elsewhere merge identically, and the merged `cassPath` is the
global one. -/
theorem loadConfig_repo_paths_not_observable_witness :
    mergeLayers ⟨"cass", "pb", "dd", "anthropic", "m", 10⟩
      { cassPath := some "global-cass" }
      { cassPath := some "evil", playbookPath := some "evil-pb",
        diaryDir := some "evil-dd", provider := some "p" } {} =
      mergeLayers ⟨"cass", "pb", "dd", "anthropic", "m", 10⟩
        { cassPath := some "global-cass" }
        { provider := some "p" } {} ∧
    (mergeLayers ⟨"cass", "pb", "dd", "anthropic", "m", 10⟩
      { cassPath := some "global-cass" }
      { cassPath := some "evil", playbookPath := some "evil-pb",
        diaryDir := some "evil-dd", provider := some "p" } {}).cassPath =
      "global-cass" := by
  have h := loadConfig_repo_paths_not_observable
    ⟨"cass", "pb", "dd", "anthropic", "m", 10⟩
    { cassPath := some "global-cass" } {}
    { cassPath := some "evil", playbookPath := some "evil-pb",
      diaryDir := some "evil-dd", provider := some "p" }
    { provider := some "p" } (by decide) (by decide) (by decide)
  exact ⟨h.1, h.2.1.trans (by decide)⟩

/-- Claim C10: a config file whose contents fail to parse is treated exactly
like an absent one: `loadConfigFile` returns the empty partial config instead
of throwing, and `loadConfig` produces the same valid merged config whether
the malformed file (global or repo) is present or missing. -/
theorem loadConfigFile_malformed_as_absent
    (parse : String → Option PartialConfig) (defaults : Config)
    (content : String) (globalFile repoFile : Option String)
    (cliOverrides : PartialConfig) (hbad : parse content = none) :
    loadConfigFile parse (some content) = ({} : PartialConfig) ∧
    loadConfigFile parse none = ({} : PartialConfig) ∧
    loadConfig parse defaults (some content) repoFile cliOverrides =
      loadConfig parse defaults none repoFile cliOverrides ∧
    loadConfig parse defaults globalFile (some content) cliOverrides =
      loadConfig parse defaults globalFile none cliOverrides := by
  have hfile : loadConfigFile parse (some content) = ({} : PartialConfig) := by
    simp [loadConfigFile, hbad]
  refine ⟨hfile, rfl, ?_, ?_⟩
  · simp only [loadConfig, hfile]
    rfl
  · simp only [loadConfig, hfile]
    rfl

/-- Witness for C10: with a parser rejecting a concrete malformed content
string, the merged config equals the one computed without the file. -/
theorem loadConfigFile_malformed_as_absent_witness :
    loadConfigFile (fun _ => none) (some "not json") = ({} : PartialConfig) ∧
    loadConfig (fun _ => none) ⟨"cass", "pb", "dd", "anthropic", "m", 10⟩
      (some "not json") none {} =
      loadConfig (fun _ => none) ⟨"cass", "pb", "dd", "anthropic", "m", 10⟩
        none none {} := by
  have h := loadConfigFile_malformed_as_absent (fun _ => none)
    ⟨"cass", "pb", "dd", "anthropic", "m", 10⟩ "not json" none none {} rfl
  exact ⟨h.1, h.2.2.1⟩

/-! ## Context assembler (src/src/commands/context.ts)

`contextCommand` scores the playbook bullets against the task keywords and
keeps the top scorers.  `scoreBulletRelevance` lives in src/utils.ts, which
is not in the tree, so the per-bullet relevance score is an abstract
parameter `score : PlaybookBullet → Rat` (JS numbers as rationals); every
property claimed of the relevant-bullets list holds for any score function.
JS `Array.prototype.sort` with comparator `(a, b) => b.score - a.score` is a
sort by non-increasing score, modelled by insertion sort. -/

/-- The projection of `PlaybookBullet` of src/src/types.ts that
`contextCommand` consults. -/
structure PlaybookBullet where
  id : String
  content : String
  category : String
  tags : List String
  deprecated : Bool
  state : String
deriving DecidableEq

/-- The first filter of step 3 of `contextCommand`:
`!b.deprecated && b.state !== "retired"`. -/
def keepBullet (b : PlaybookBullet) : Bool :=
  !b.deprecated && decide (b.state ≠ "retired")

/-- Steps `filter → map → filter` of `contextCommand`: keep non-deprecated,
non-retired bullets, pair each with its relevance score, and keep strictly
positive scores. -/
def scoredBullets (bullets : List PlaybookBullet) (score : PlaybookBullet → Rat) :
    List (PlaybookBullet × Rat) :=
  ((bullets.filter keepBullet).map (fun b => (b, score b))).filter
    (fun p => decide ((0 : Rat) < p.2))

/-- The `.sort((a, b) => b.score - a.score)` step of `contextCommand`. -/
def sortedScored (bullets : List PlaybookBullet) (score : PlaybookBullet → Rat) :
    List (PlaybookBullet × Rat) :=
  List.insertionSort (fun p q : PlaybookBullet × Rat => q.2 ≤ p.2)
    (scoredBullets bullets score)

/-- `options.maxBullets || config.maxBulletsInContext` of `contextCommand`
(JS `||`: an absent or zero option falls back to the config value). -/
def resolveMaxBullets (opt : Option Nat) (cfgMax : Nat) : Nat :=
  match opt with
  | none => cfgMax
  | some n => if n = 0 then cfgMax else n

/-- The `relevantBullets` list of `contextCommand` of
src/src/commands/context.ts: the sorted positive-score survivors, cut to
`maxBullets`, projected back to the bullets. -/
def contextRelevantBullets (bullets : List PlaybookBullet)
    (score : PlaybookBullet → Rat) (maxBullets : Nat) : List PlaybookBullet :=
  ((sortedScored bullets score).take maxBullets).map Prod.fst

/-- Every pair reaching the sorted, truncated list is a kept bullet of the
playbook paired with its strictly positive score. -/
theorem mem_sortedScored_take (bullets : List PlaybookBullet)
    (score : PlaybookBullet → Rat) (n : Nat) (p : PlaybookBullet × Rat)
    (hp : p ∈ (sortedScored bullets score).take n) :
    p.1 ∈ bullets ∧ p.1.deprecated = false ∧ p.1.state ≠ "retired" ∧
      p.2 = score p.1 ∧ 0 < p.2 := by
  have hsorted : p ∈ sortedScored bullets score :=
    (List.take_sublist n _).subset hp
  have hscored : p ∈ scoredBullets bullets score :=
    ((List.perm_insertionSort _ _).mem_iff).mp hsorted
  rcases List.mem_filter.mp hscored with ⟨hmap, hpos⟩
  rcases List.mem_map.mp hmap with ⟨b, hbmem, hbeq⟩
  rcases List.mem_filter.mp hbmem with ⟨hbbul, hbkeep⟩
  have hb1 : p.1 = b := by rw [← hbeq]
  have hb2 : p.2 = score b := by rw [← hbeq]
  have hk := hbkeep
  simp only [keepBullet, Bool.and_eq_true, Bool.not_eq_true', decide_eq_true_eq] at hk
  subst hb1
  exact ⟨hbbul, hk.1, hk.2, hb2, by simpa using hpos⟩

/-- Claim C7: the relevant-bullets list of the context command contains only
bullets that are neither deprecated nor retired, each drawn from the playbook
with a strictly positive relevance score; it is sorted by non-increasing
score; and its length never exceeds the resolved `maxBullets` limit (the
`maxBullets` option, or `config.maxBulletsInContext` when the option is
absent or zero). -/
theorem contextRelevantBullets_spec (bullets : List PlaybookBullet)
    (score : PlaybookBullet → Rat) (opt : Option Nat) (cfgMax : Nat) :
    (∀ b ∈ contextRelevantBullets bullets score (resolveMaxBullets opt cfgMax),
      b ∈ bullets ∧ b.deprecated = false ∧ b.state ≠ "retired" ∧ 0 < score b) ∧
    (contextRelevantBullets bullets score (resolveMaxBullets opt cfgMax)).length ≤
      resolveMaxBullets opt cfgMax ∧
    List.Pairwise (fun a b => score b ≤ score a)
      (contextRelevantBullets bullets score (resolveMaxBullets opt cfgMax)) := by
  refine ⟨?_, ?_, ?_⟩
  · intro b hb
    rcases List.mem_map.mp hb with ⟨p, hpmem, hpeq⟩
    have h := mem_sortedScored_take bullets score _ p hpmem
    subst hpeq
    exact ⟨h.1, h.2.1, h.2.2.1, h.2.2.2.1 ▸ h.2.2.2.2⟩
  · rw [contextRelevantBullets, List.length_map]
    exact List.length_take_le _ _
  · have hsorted : List.Pairwise (fun p q : PlaybookBullet × Rat => q.2 ≤ p.2)
        (sortedScored bullets score) :=
      @List.sorted_insertionSort (PlaybookBullet × Rat)
        (fun p q => q.2 ≤ p.2) _
        ⟨fun p q => le_total q.2 p.2⟩
        ⟨fun _ _ _ hab hbc => le_trans hbc hab⟩
        (scoredBullets bullets score)
    have htake := hsorted.take
      (n := resolveMaxBullets opt cfgMax)
    have himp : List.Pairwise (fun p q : PlaybookBullet × Rat =>
        score q.1 ≤ score p.1)
        ((sortedScored bullets score).take (resolveMaxBullets opt cfgMax)) := by
      refine List.Pairwise.imp_of_mem ?_ htake
      intro p q hp hq hle
      have h1 := mem_sortedScored_take bullets score _ p hp
      have h2 := mem_sortedScored_take bullets score _ q hq
      rw [← h1.2.2.2.1, ← h2.2.2.2.1]
      exact hle
    exact List.pairwise_map.mpr himp

/-- Witness for C7: with two live bullets scored 3 and 2 and a `maxBullets`
option of 1, the single returned bullet is the higher scorer, live and
positively scored. -/
theorem contextRelevantBullets_spec_witness :
    (⟨"b1", "one", "cat", [], false, "active"⟩ : PlaybookBullet) ∈
      [(⟨"b2", "two", "cat", [], false, "active"⟩ : PlaybookBullet),
        ⟨"b1", "one", "cat", [], false, "active"⟩] ∧
    (⟨"b1", "one", "cat", [], false, "active"⟩ : PlaybookBullet).deprecated = false ∧
    (⟨"b1", "one", "cat", [], false, "active"⟩ : PlaybookBullet).state ≠ "retired" ∧
    (0 : Rat) < (if (⟨"b1", "one", "cat", [], false, "active"⟩ : PlaybookBullet).id = "b1"
      then (3 : Rat) else 2) := by
  exact (contextRelevantBullets_spec
    [⟨"b2", "two", "cat", [], false, "active"⟩,
      ⟨"b1", "one", "cat", [], false, "active"⟩]
    (fun b => if b.id = "b1" then (3 : Rat) else 2) (some 1) 10).1
    ⟨"b1", "one", "cat", [], false, "active"⟩ (by decide)

/-! ## Safety guard (src/src/trauma_guard_script.ts)

The embedded Python guard script loads trauma entries from the global and
repo JSONL files and blocks a command when any active pattern matches it
case-insensitively.  A JSONL line is `corrupt` (skipped by the inner
`except`) or a parsed entry; a file-level read error contributes no lines
(the fail-open `except` around each file).  Python `re` with `re.IGNORECASE`
is abstracted as `compileCI : String → Option (String → Bool)`: `none`
models `re.error` for an invalid pattern, `some f` the case-insensitive
search predicate of a valid one. -/

/-- A trauma entry as the guard consults it: `t.get("pattern")` is `none`
when the key is missing; `status` gates loading. -/
structure TraumaEntry where
  id : String
  pattern : Option String
  status : String
deriving DecidableEq

/-- One line of a traumas.jsonl file. -/
inductive TraumaLine where
  | corrupt
  | entry (t : TraumaEntry)
deriving DecidableEq

/-- The per-file loop of `load_traumas`: skip corrupt lines, keep entries
whose `status` is `"active"`. -/
def activeOf : List TraumaLine → List TraumaEntry
  | [] => []
  | .corrupt :: ls => activeOf ls
  | .entry t :: ls => if t.status = "active" then t :: activeOf ls else activeOf ls

/-- `load_traumas` of src/src/trauma_guard_script.ts: the active entries of
the global tier followed by those of the repo tier. -/
def load_traumas (globalLines repoLines : List TraumaLine) : List TraumaEntry :=
  activeOf globalLines ++ activeOf repoLines

/-- The per-entry test inside `check_command`: the three `continue` paths of
the source (missing pattern, Python-falsy empty pattern, `re.error`) are the
`false` cases; otherwise the compiled case-insensitive pattern is searched
against the command. -/
def traumaMatches (compileCI : String → Option (String → Bool))
    (command : String) (t : TraumaEntry) : Bool :=
  match t.pattern with
  | none => false
  | some p =>
    if p.isEmpty then false
    else
      match compileCI p with
      | none => false
      | some f => f command

/-- `check_command` of src/src/trauma_guard_script.ts: return the first
trauma whose pattern matches the command, or `None`. -/
def check_command (compileCI : String → Option (String → Bool))
    (command : String) : List TraumaEntry → Option TraumaEntry
  | [] => none
  | t :: ts =>
    if traumaMatches compileCI command t then some t
    else check_command compileCI command ts

/-- Membership in the loaded active entries of one file. -/
theorem mem_activeOf (t : TraumaEntry) (ls : List TraumaLine) :
    t ∈ activeOf ls ↔ TraumaLine.entry t ∈ ls ∧ t.status = "active" := by
  induction ls with
  | nil => simp [activeOf]
  | cons l ls ih =>
    cases l with
    | corrupt => simp [activeOf, ih]
    | entry u =>
      by_cases hu : u.status = "active"
      · rw [activeOf, if_pos hu]
        constructor
        · intro h
          rcases List.mem_cons.mp h with h | h
          · subst h; exact ⟨List.mem_cons_self _ _, hu⟩
          · exact ⟨List.mem_cons_of_mem _ (ih.mp h).1, (ih.mp h).2⟩
        · rintro ⟨hmem, hact⟩
          rcases List.mem_cons.mp hmem with h | h
          · cases h; exact List.mem_cons_self _ _
          · exact List.mem_cons_of_mem _ (ih.mpr ⟨h, hact⟩)
      · rw [activeOf, if_neg hu]
        rw [ih]
        constructor
        · rintro ⟨hmem, hact⟩
          exact ⟨List.mem_cons_of_mem _ hmem, hact⟩
        · rintro ⟨hmem, hact⟩
          rcases List.mem_cons.mp hmem with h | h
          · cases h; exact absurd hact hu
          · exact ⟨h, hact⟩

/-- `check_command` finds an entry exactly when some entry matches. -/
theorem check_command_isSome (compileCI : String → Option (String → Bool))
    (command : String) (l : List TraumaEntry) :
    (check_command compileCI command l).isSome =
      l.any (traumaMatches compileCI command) := by
  induction l with
  | nil => rfl
  | cons t ts ih =>
    by_cases ht : traumaMatches compileCI command t
    · simp [check_command, ht]
    · simp only [check_command, if_neg ht, List.any_cons]
      rw [ih, Bool.eq_false_iff.mpr ht, Bool.false_or]

/-- Claim C8: the guard blocks a command exactly when some trauma entry with
status `"active"`, drawn from the union of the global and repo tiers, has a
pattern that matches the command case-insensitively; membership in the
loaded list is exactly active status plus presence in either tier; and when
no active pattern matches, `check_command` returns `None` and the command is
allowed. -/
theorem check_command_blocks_iff (compileCI : String → Option (String → Bool))
    (command : String) (globalLines repoLines : List TraumaLine) :
    ((check_command compileCI command (load_traumas globalLines repoLines)).isSome ↔
      ∃ t ∈ load_traumas globalLines repoLines,
        traumaMatches compileCI command t = true) ∧
    (∀ t, t ∈ load_traumas globalLines repoLines ↔
      t.status = "active" ∧
        (TraumaLine.entry t ∈ globalLines ∨ TraumaLine.entry t ∈ repoLines)) ∧
    (check_command compileCI command (load_traumas globalLines repoLines) = none ↔
      ∀ t ∈ load_traumas globalLines repoLines,
        traumaMatches compileCI command t = false) := by
  refine ⟨?_, ?_, ?_⟩
  · rw [check_command_isSome]
    simp [List.any_eq_true]
  · intro t
    rw [load_traumas, List.mem_append, mem_activeOf, mem_activeOf]
    constructor
    · rintro (⟨h, ha⟩ | ⟨h, ha⟩)
      · exact ⟨ha, Or.inl h⟩
      · exact ⟨ha, Or.inr h⟩
    · rintro ⟨ha, h | h⟩
      · exact Or.inl ⟨h, ha⟩
      · exact Or.inr ⟨h, ha⟩
  · rw [← Option.not_isSome_iff_eq_none, check_command_isSome]
    simp [List.any_eq_true]
